import Mathlib

/-!
Verification of the blob-reference remediation pipeline.

The repository is a Go service that receives Event Grid webhook calls,
downloads a referenced spreadsheet, locates the column of Azure blob URLs,
demotes Archive-tier blobs to Cool, annotates each processed row with a
status string, and republishes the annotated spreadsheet.

This file shallowly embeds the decision logic of the Go source.  External
collaborators that the spec declares out of scope (credential acquisition,
client-object construction, the xlsx encoder, the HTTP transport) are
modelled as always available; the object store itself is modelled as an
explicit oracle passed to each function, recording exactly the choices the
store can make (properties lookup outcome, tier value, set-tier outcome,
container existence, upload outcome).
-/

/-! ## Reference Extractor (`regexp` + `FindStringSubmatch` in the source)

The source matches cells against
`https://([a-zA-Z0-9-]+)\.blob\.core\.windows\.net/([^/\s]+)/([^\s"]+)`.
`matchBlobURL` models `FindStringSubmatch` of this pattern for cell strings
that consist of exactly one such URL (nonempty account, container and path
with the character classes above); a cell not of this shape is treated as
non-matching.  Every concrete cell used in the theorems below is of this
exact shape, where the model and the regex agree.
-/

/-- `[a-zA-Z0-9-]` : the account character class of the blob-URL regex. -/
def isAccountChar (c : Char) : Bool :=
  (c.isAlpha || c.isDigit) || c = '-'

/-- Go regexp `\s` : `[\t\n\f\r ]`. -/
def isRegexSpace (c : Char) : Bool :=
  c = ' ' || c = '\t' || c = '\n' || c = '\r' || c = Char.ofNat 12

/-- `[^/\s]` : the container character class of the blob-URL regex. -/
def isContainerChar (c : Char) : Bool :=
  !(c = '/') && !(isRegexSpace c)

/-- `[^\s"]` : the path character class of the blob-URL regex. -/
def isPathChar (c : Char) : Bool :=
  !(isRegexSpace c) && !(c = '"')

/-- Go `unicode.IsSpace` restricted to ASCII, as `strings.TrimSpace` uses
it (the cells in this development are ASCII). -/
def isGoSpace (c : Char) : Bool :=
  c = ' ' || c = '\t' || c = '\n' || c = '\r' || c = Char.ofNat 11 || c = Char.ofNat 12

/-- Go `strings.TrimSpace` over the string's characters. -/
def trimSpace (s : String) : String :=
  String.mk (((s.data.dropWhile isGoSpace).reverse.dropWhile isGoSpace).reverse)

/-- Go `strings.ToLower` for ASCII text. -/
def lowerChar (c : Char) : Char :=
  if 'A' ≤ c && c ≤ 'Z' then Char.ofNat (c.toNat + 32) else c

/-- Go `strings.ToLower` over the string's characters. -/
def lowerString (s : String) : String :=
  String.mk (s.data.map lowerChar)

/-- Split at the first occurrence of the (nonempty) `marker`: the part
before it and the part after it, or `none` when it does not occur. -/
def splitFirst (marker : List Char) : List Char → Option (List Char × List Char)
  | [] => none
  | c :: t =>
    if marker.isPrefixOf (c :: t) then some ([], (c :: t).drop marker.length)
    else
      match splitFirst marker t with
      | some (pre, post) => some (c :: pre, post)
      | none => none

/-- Models `regex.FindStringSubmatch` of the blob-URL pattern on a cell that
is exactly one well-formed blob URL: the account is the text between
`https://` and the first `.blob.core.windows.net/` marker, the container the
first path segment, the path the (possibly `/`-containing) remainder, each
checked against its character class.  Returns the
`(account, container, path)` capture groups, or `none` when the cell does
not have that shape. -/
def matchBlobURL (s : String) : Option (String × String × String) :=
  if ("https://".data).isPrefixOf s.data then
    match splitFirst (".blob.core.windows.net/".data) (s.data.drop 8) with
    | none => none
    | some (account, tail) =>
      if account ≠ [] && account.all isAccountChar then
        match splitFirst ['/'] tail with
        | none => none
        | some (containerName, path) =>
          if containerName ≠ [] && containerName.all isContainerChar &&
              (path ≠ [] && path.all isPathChar) then
            some (String.mk account, String.mk containerName, String.mk path)
          else none
      else none
  else none

/-- `regex.MatchString` on a cell, derived from the submatch model exactly as
the source derives both from the same compiled regex. -/
def matchBlobURLBool (s : String) : Bool :=
  (matchBlobURL s).isSome

/-! ## Per-segment percent-encoding of the blob path

Embeds the encoding block of `processBlobTier`:

    pathSegments := strings.Split(blobPath, "/")
    for i, segment := range pathSegments {
        pathSegments[i] = url.PathEscape(segment)
    }
    encodedBlobPath := strings.Join(pathSegments, "/")

`url.PathEscape` is modelled byte-exactly for ASCII text at the level of
`List Char` (Go escapes per UTF-8 byte; for code points below 128 the two
notions coincide, and the round-trip theorems below carry that bound as a
hypothesis).
-/

/-- Go `net/url.shouldEscape c encodePathSegment`: keep alphanumerics, the
unreserved marks `-._~` and the reserved set `$&+:=@`; escape everything
else (including space, `%`, `/`, `;`, `,`, `?`). -/
def shouldEscapePathSegment (c : Char) : Bool :=
  if (('a' ≤ c && c ≤ 'z') || ('A' ≤ c && c ≤ 'Z') || ('0' ≤ c && c ≤ '9')) then
    false
  else if c = '-' || c = '_' || c = '.' || c = '~' then
    false
  else if c = '$' || c = '&' || c = '+' || c = ':' || c = '=' || c = '@' then
    false
  else
    true

/-- The upper-case hex digit character Go's escaper uses (`"0123456789ABCDEF"`). -/
def upperHexChar (n : Nat) : Char :=
  Char.ofNat (if n < 10 then 48 + n else 55 + n)

/-- `url.PathEscape` on one path segment, over the segment's characters:
each byte either stands for itself or becomes a `%HH` escape. -/
def pathEscapeSeg : List Char → List Char
  | [] => []
  | c :: t =>
    (if shouldEscapePathSegment c then
      ['%', upperHexChar (c.toNat / 16), upperHexChar (c.toNat % 16)]
    else [c]) ++ pathEscapeSeg t

/-- The value of one hex digit character, as Go's `unhex` accepts it. -/
def hexVal (c : Char) : Option Nat :=
  if '0' ≤ c && c ≤ '9' then some (c.toNat - 48)
  else if 'a' ≤ c && c ≤ 'f' then some (c.toNat - 87)
  else if 'A' ≤ c && c ≤ 'F' then some (c.toNat - 55)
  else none

/-- `url.PathUnescape` on one encoded segment: each `%` must start a valid
two-digit escape, other characters stand for themselves. -/
def pathUnescapeSeg : List Char → Option (List Char)
  | [] => some []
  | c :: t =>
    if c = '%' then
      match t with
      | h1 :: h2 :: t2 =>
        match hexVal h1, hexVal h2, pathUnescapeSeg t2 with
        | some a, some b, some r => some (Char.ofNat (16 * a + b) :: r)
        | _, _, _ => none
      | _ => none
    else
      (pathUnescapeSeg t).map (c :: ·)

/-- Prepend a character to the first piece of a split (helper for
`splitOnChar`). -/
def consHead (b : Char) : List (List Char) → List (List Char)
  | [] => [[]]
  | s :: rest => (b :: s) :: rest

/-- `strings.Split l (c)`: split a character list on a separator character;
the empty list yields one empty piece, as in Go. -/
def splitOnChar (c : Char) : List Char → List (List Char)
  | [] => [[]]
  | b :: t =>
    if b = c then [] :: splitOnChar c t else consHead b (splitOnChar c t)

/-- `strings.Join pieces (c)`. -/
def joinWithChar (c : Char) : List (List Char) → List Char
  | [] => []
  | [s] => s
  | s :: rest => s ++ c :: joinWithChar c rest

/-- The encoding block of `processBlobTier`, over the path's characters:
split on `/`, percent-encode each segment, rejoin with `/`. -/
def encodeBlobPathChars (p : List Char) : List Char :=
  joinWithChar '/' ((splitOnChar '/' p).map pathEscapeSeg)

/-- The same encoding at `String` level, as the pipeline consumes it. -/
def encodeBlobPath (blobPath : String) : String :=
  String.mk (encodeBlobPathChars blobPath.data)

/-! ## Tier Remediator (`processBlobTier`)

The object store is an oracle: `getProps` is the outcome of the
`GetProperties` call at the (encoded) blob path — an error detail, or the
blob's optional access tier — and `setTier` the outcome of the `SetTier`
call.  Credential and client construction are the out-of-scope identity
layer and are modelled as succeeding. -/

structure BlobStore where
  /-- Outcome of `GetProperties`: error detail, or `AccessTier` (which may be
  unset, Go `nil`). -/
  getProps : String → String → String → Except String (Option String)
  /-- Outcome of `SetTier(..., blob.AccessTierCool, ...)`. -/
  setTier : String → String → String → Except String Unit

/-- What one `processBlobTier` call did: the status string it returned, the
Go error it returned (`none` = `nil`), and how many tier-change requests it
issued against the store. -/
structure TierResult where
  status : String
  err : Option String
  setTierReqs : Nat
deriving Repr, DecidableEq

/-- `processBlobTier account containerName blobPath` from the source:
percent-encode the path per segment, query the blob's properties, and demote
an `Archive` blob to `Cool`. -/
def processBlobTier (store : BlobStore) (account containerName blobPath : String) :
    TierResult :=
  let encodedBlobPath := encodeBlobPath blobPath
  match store.getProps account containerName encodedBlobPath with
  | .error e => ⟨"Error: Blob not accessible", some e, 0⟩
  | .ok none => ⟨"Skipped: No access tier set", none, 0⟩
  | .ok (some currentTier) =>
    if currentTier = "Archive" then
      match store.setTier account containerName encodedBlobPath with
      | .error e => ⟨"Error: Failed to set tier", some e, 1⟩
      | .ok _ => ⟨"Changed: Archive → Cool", none, 1⟩
    else
      ⟨"Skipped: Already " ++ currentTier, none, 0⟩

/-- A store whose every blob is in the given tier state and whose tier-change
requests all succeed or fail uniformly; used to instantiate the theorems on
concrete inputs. -/
def constStore (props : Except String (Option String)) (tierOk : Except String Unit) :
    BlobStore :=
  ⟨fun _ _ _ => props, fun _ _ _ => tierOk⟩

/-! ## Column Locator (`findURLColumn`)

The source passes the compiled regex into `findURLColumn`; the embedding
accordingly takes the cell matcher as a function argument.  Go encodes
"no column" as `-1`; the embedding uses `Option Nat`. -/

/-- The fixed header vocabulary `commonURLHeaders` of the source. -/
def commonURLHeaders : List String :=
  ["azure_blob_location", "blob_location", "azure_blob", "blob_url",
   "url", "blob", "location", "file_path", "file_url", "storage_url",
   "azure_storage_url", "blob_path"]

/-- First pass of `findURLColumn`: the first (leftmost) column whose
trimmed, lower-cased header text is in the vocabulary. -/
def findHeaderMatchAux : Nat → List String → Option Nat
  | _, [] => none
  | colIndex, header :: rest =>
    if commonURLHeaders.contains (lowerString (trimSpace header)) then some colIndex
    else findHeaderMatchAux (colIndex + 1) rest

/-- One data row of the second pass: bump the per-column match counters for
cells whose trimmed text matches the reference pattern.  Cells beyond the
counter array (`colIndex >= len(urlMatches)`) are ignored, and counters
beyond the row keep their value, as in the source. -/
def bumpCounts (matchRef : String → Bool) : List Nat → List String → List Nat
  | counts, [] => counts
  | [], _ => []
  | count :: counts, cellValue :: row =>
    (if matchRef (trimSpace cellValue) then count + 1 else count) ::
      bumpCounts matchRef counts row

/-- The per-column counters after the second-pass scan.  The source loop
`for rowIndex := 1; rowIndex < len(rows) && rowIndex < 10` visits the rows
at indices 1 through 9: the first nine data rows. -/
def urlMatchCounts (matchRef : String → Bool) (rows : List (List String)) :
    List Nat :=
  ((rows.drop 1).take 9).foldl (bumpCounts matchRef)
    (List.replicate (rows.headD []).length 0)

/-- The source's maximum scan: the leftmost column whose counter strictly
exceeds every earlier one and is positive (`matches > maxMatches` starting
from `maxMatches = 0`, `bestColumn = -1`). -/
def bestColumnAux : Nat → Nat → Option Nat → List Nat → Option Nat
  | _, _, best, [] => best
  | colIndex, maxMatches, best, cnt :: rest =>
    if cnt > maxMatches then
      bestColumnAux (colIndex + 1) cnt (some colIndex) rest
    else bestColumnAux (colIndex + 1) maxMatches best rest

/-- `findURLColumn rows regex` from the source: header-vocabulary match
first, content-frequency scan as fallback. -/
def findURLColumn (rows : List (List String)) (matchRef : String → Bool) :
    Option Nat :=
  if rows.length = 0 then none
  else
    match findHeaderMatchAux 0 (rows.headD []) with
    | some colIndex => some colIndex
    | none => bestColumnAux 0 0 none (urlMatchCounts matchRef rows)

/-! ## Status Annotator and per-run counters (`processExcelFile`)

The spreadsheet is the ragged grid `GetRows` returns: a list of rows, each
a list of cell strings.  The loop iterates over that snapshot while writes
go to the workbook; the embedding iterates over the input grid and threads
the written grid separately.  `CoordinatesToCellName` and `SetCellValue`
are called only at valid coordinates on an existing sheet and are modelled
as succeeding. -/

/-- The run counters `stats` of `processExcelFile`. -/
structure Stats where
  processed : Nat
  changed : Nat
  skipped : Nat
  errors : Nat
deriving Repr, DecidableEq

/-- The initial counter map. -/
def Stats.init : Stats := ⟨0, 0, 0, 0⟩

/-- Pad a list to length `n` with copies of `pad` (no-op when already long
enough). -/
def padTo (n : Nat) (pad : α) (l : List α) : List α :=
  l ++ List.replicate (n - l.length) pad

/-- Models `SetCellValue` on the sheet grid: rows and cells that do not yet
exist materialize as empty, then the addressed cell is overwritten. -/
def setCell (g : List (List String)) (rowIndex colIndex : Nat) (v : String) :
    List (List String) :=
  let g2 := padTo (rowIndex + 1) ([] : List String) g
  g2.set rowIndex ((padTo (colIndex + 1) "" (g2.getD rowIndex [])).set colIndex v)

/-- Go `strings.Contains s sub` for nonempty `sub`: the pattern has a first
occurrence in `s`. -/
def containsSubstring (s sub : String) : Bool :=
  (splitFirst sub.data s.data).isSome

/-- How one processed data row ended: which counter the loop bumps, carrying
the status string written into the Status column. -/
inductive RowOutcome where
  | changed (status : String)
  | skipped (status : String)
  | errored (status : String)
deriving Repr, DecidableEq

/-- The status string a row outcome writes. -/
def RowOutcome.status : RowOutcome → String
  | .changed s => s
  | .skipped s => s
  | .errored s => s

/-- The guard chain and classification of one iteration of the
`processExcelFile` row loop: `none` when the row is skipped without
processing (empty row, row shorter than the URL column, empty or
non-matching cell); otherwise the outcome recorded for the row.  On a Go
error the written status is rebuilt from the error
(`fmt.Sprintf("Error: %v", err)`); otherwise the loop counts the row as
changed exactly when the status contains `Changed: Archive → Cool`. -/
def rowOutcome (find : String → Option (String × String × String))
    (store : BlobStore) (urlCol : Nat) (row : List String) :
    Option RowOutcome :=
  if row.length = 0 then none
  else if row.length ≤ urlCol then none
  else
    let urlValue := trimSpace (row.getD urlCol "")
    if urlValue = "" then none
    else
      match find urlValue with
      | none => none
      | some (account, containerName, blobPath) =>
        let r := processBlobTier store account containerName blobPath
        match r.err with
        | some e => some (.errored ("Error: " ++ e))
        | none =>
          if containsSubstring r.status "Changed: Archive → Cool" then
            some (.changed r.status)
          else some (.skipped r.status)

/-- The counters after recording one row outcome. -/
def Stats.record (st : Stats) : RowOutcome → Stats
  | .changed _ => { st with processed := st.processed + 1, changed := st.changed + 1 }
  | .skipped _ => { st with processed := st.processed + 1, skipped := st.skipped + 1 }
  | .errored _ => { st with processed := st.processed + 1, errors := st.errors + 1 }

/-- The row loop of `processExcelFile`, from row index 1 over the `GetRows`
snapshot, threading the written grid and the counters. -/
def processRows (find : String → Option (String × String × String))
    (store : BlobStore) (urlCol statusCol : Nat) :
    Nat → List (List String) → List (List String) → Stats →
      List (List String) × Stats
  | _, [], g, st => (g, st)
  | rowIndex, row :: rest, g, st =>
    match rowOutcome find store urlCol row with
    | none => processRows find store urlCol statusCol (rowIndex + 1) rest g st
    | some o =>
      processRows find store urlCol statusCol (rowIndex + 1) rest
        (setCell g rowIndex statusCol o.status) (st.record o)

/-- `processExcelFile` (the `findURLColumn`-based pipeline version): locate
the URL column; if none is found return the untouched grid; otherwise write
the `Status` header after the last header column (`statusColIndex :=
len(rows[0])`), process every data row, and return the written grid with
the run counters. -/
def processExcelFile (find : String → Option (String × String × String))
    (store : BlobStore) (g : List (List String)) :
    List (List String) × Stats :=
  if g.length = 0 then (g, Stats.init)
  else
    match findURLColumn g (fun s => (find s).isSome) with
    | none => (g, Stats.init)
    | some urlCol =>
      processRows find store urlCol (g.headD []).length 1 (g.drop 1)
        (setCell g 0 (g.headD []).length "Status") Stats.init

/-- The concrete table exhibiting the data-row scan cutoff of
`findURLColumn`: headers outside the vocabulary, ten data rows, one blob
reference in column 0 (data row 1) and two in column 1 (data rows 9
and 10). -/
def nineRowScanTable : List (List String) :=
  [["a", "b"],
   ["https://acct.blob.core.windows.net/cont/file.xlsx", "x"],
   ["x", "x"], ["x", "x"], ["x", "x"], ["x", "x"],
   ["x", "x"], ["x", "x"], ["x", "x"],
   ["x", "https://acct.blob.core.windows.net/cont/file.xlsx"],
   ["x", "https://acct.blob.core.windows.net/cont/file.xlsx"]]


/-! ## Webhook Gateway (`handleProcess`)

One inbound POST body is unmarshalled twice in the source: first into
`[]EventGridSubscriptionValidation`, then into `[]EventGridEvent`.  Both
target shapes are arrays of envelopes with lenient field decoding, so the
embedding carries one envelope type holding all fields and takes the two
unmarshal outcomes of the body (`none` = parse error) as inputs.  The
remediation pipeline `processExcelBlob` — the only object-store work the
handler triggers — is abstracted as a function from the event URL to a Go
error outcome; the result's second component records the URLs the pipeline
was invoked on, in order: each invocation's side effects happen when it
runs and are never undone. -/

structure Envelope where
  id : String
  eventType : String
  /-- `data.validationCode` (empty when the field is absent). -/
  validationCode : String
  /-- `data.url` (empty when the field is absent). -/
  url : String
deriving Repr, DecidableEq, Inhabited

/-- The event-type tag of the subscription-validation handshake. -/
def subscriptionValidationEvent : String :=
  "Microsoft.EventGrid.SubscriptionValidationEvent"

/-- The event-type tag of interest for remediation. -/
def blobCreatedEvent : String := "Microsoft.Storage.BlobCreated"

/-- An HTTP response: status code and body.  The handshake body
(`validationResponse` envelope around the echoed code) is kept structurally
as `validation code`; other bodies are the literal text written. -/
inductive RespBody where
  | validation (code : String)
  | text (s : String)
deriving Repr, DecidableEq

structure HttpResp where
  status : Nat
  body : RespBody
deriving Repr, DecidableEq

/-- The event loop of `handleProcess`: skip validation-type and
non-`BlobCreated` events; invoke the pipeline on each `BlobCreated` URL; on
the first pipeline error answer with it and stop.  Returns the pipeline
invocations performed (in order) and the error, if any. -/
def eventLoop (pipeline : String → Except String Unit) :
    List Envelope → List String × Option String
  | [] => ([], none)
  | e :: rest =>
    if e.eventType = subscriptionValidationEvent then eventLoop pipeline rest
    else if e.eventType ≠ blobCreatedEvent then eventLoop pipeline rest
    else
      match pipeline e.url with
      | .ok _ =>
        let r := eventLoop pipeline rest
        (e.url :: r.1, r.2)
      | .error msg => ([e.url], some msg)

/-- Whether the source's validation branch fires: the validation parse
succeeded (`err == nil`), the array is nonempty, and its first element
carries the subscription-validation tag. -/
def isValidationBatch : Option (List Envelope) → Bool
  | some (e :: _) => e.eventType = subscriptionValidationEvent
  | _ => false

/-- `handleProcess` on one POST body, given the two unmarshal outcomes of
that body and the pipeline: the validation branch echoes the first
element's code with status 200 and performs no pipeline work; otherwise a
failed event parse yields 400, a pipeline error yields 500 with the error
detail after `failed to process blob: `, and completion of all dispatched
events yields the fixed 200 acknowledgement. -/
def handleProcess (pipeline : String → Except String Unit)
    (valParse evtParse : Option (List Envelope)) : HttpResp × List String :=
  if isValidationBatch valParse then
    (⟨200, .validation ((valParse.getD []).headD default).validationCode⟩, [])
  else
    match evtParse with
    | none => (⟨400, .text "bad request"⟩, [])
    | some events =>
      match eventLoop pipeline events with
      | (ds, none) => (⟨200, .text "✅ Event processed"⟩, ds)
      | (ds, some msg) =>
        (⟨500, .text ("failed to process blob: " ++ msg)⟩, ds)

/-- The `BlobCreated` URLs of a batch, in order: the URLs the loop
dispatches when no failure interrupts it. -/
def blobCreatedUrls (events : List Envelope) : List String :=
  (events.filter (fun e => e.eventType = blobCreatedEvent)).map (·.url)

/-! ## Output Publisher (`uploadToOutputContainer`, `extractFilenameFromURL`)

The output store oracle: whether the container-existence probe
(`GetProperties` on the container) succeeds, whether `Create` succeeds, and
whether the single `Upload` call succeeds.  The trace records the `Create`
calls and the upload attempts (blob name and content type) made. -/

structure OutputStore where
  containerExists : Bool
  createOk : Bool
  uploadOk : Bool
deriving Repr, DecidableEq

structure UploadTrace where
  createCalls : Nat
  /-- Upload attempts performed: blob name and content type. -/
  uploads : List (String × String)
deriving Repr, DecidableEq

/-- The content type the publisher uploads with. -/
def spreadsheetContentType : String :=
  "application/vnd.openxmlformats-officedocument.spreadsheetml.sheet"

/-- Go `strings.TrimSuffix`: drop the suffix when present, else return the
string unchanged. -/
def goTrimSuffix (s suf : String) : String :=
  if suf.data.isSuffixOf s.data then
    String.mk (s.data.take (s.data.length - suf.data.length))
  else s

/-- `extractFilenameFromURL`: `url.Parse` the blob URL and take the last
`/`-separated part of its path.  Modelled for URLs without query, fragment
or percent-escapes — the shape `BlobCreated` events carry — where the last
segment of the parsed path equals the last `/`-separated component of the
URL text.  (`strings.Split` never returns an empty slice, so the source's
error branch is unreachable.) -/
def extractFilenameFromURL (blobURL : String) : String :=
  String.mk ((splitOnChar '/' blobURL.data).getLastD [])

/-- `uploadToOutputContainer` against the store oracle: probe the output
container, create it only when the probe fails, derive the output name from
the source name, and upload once with the spreadsheet content type.
Returns the calls performed and the Go error outcome (`none` = `nil`). -/
def uploadToOutputContainer (store : OutputStore) (originalBlobURL : String) :
    UploadTrace × Option String :=
  let createCalls := if store.containerExists then 0 else 1
  if !store.containerExists && !store.createOk then
    (⟨createCalls, []⟩, some "failed to create output container")
  else
    (⟨createCalls,
      [(goTrimSuffix (extractFilenameFromURL originalBlobURL) ".xlsx" ++
          "_processed.xlsx", spreadsheetContentType)]⟩,
      if store.uploadOk then none
      else some "failed to upload processed file to output storage account")

/-! ## Upload endpoint (`handleUpload` of the uploader service)

The request environment oracle: whether the multipart form parses, whether
the `file` field is present, whether the storage configuration is set,
whether the credential is obtained, and whether the store upload succeeds.
The result's second component is the blob name passed to `Upload` (`none`
when no store upload was attempted). -/

structure UploadEnv where
  parseFormOk : Bool
  fileFieldOk : Bool
  configOk : Bool
  credOk : Bool
  uploadOk : Bool
deriving Repr, DecidableEq

/-- Go `path/filepath.Ext`: the suffix of the final path element starting
at its last dot; empty when that element has no dot. -/
def filepathExt (name : String) : String :=
  let base := (splitOnChar '/' name.data).getLastD []
  let parts := splitOnChar '.' base
  if parts.length ≤ 1 then ""
  else String.mk ('.' :: parts.getLastD [])

/-- Go `path/filepath.Base` on Unix: trailing slashes removed, then the
last path element (`"."` for the empty name, `"/"` for all-slash names). -/
def filepathBase (name : String) : String :=
  if name.data = [] then "."
  else
    let t := (name.data.reverse.dropWhile (· = '/')).reverse
    if t = [] then "/" else String.mk ((splitOnChar '/' t).getLastD [])

/-- The client-error body rejecting a non-spreadsheet upload. -/
def xlsxOnlyError : String :=
  "❌ Only .xlsx files are allowed. Please upload an Excel file with .xlsx extension."

/-- `handleUpload` of the uploader service on a POST request carrying a
file named `fileName`: the guard chain of the source, where the store
upload happens only after the lower-cased-extension check passes. -/
def handleUpload (env : UploadEnv) (fileName : String) : HttpResp × Option String :=
  if env.parseFormOk = false then (⟨400, .text "failed to parse form"⟩, none)
  else if env.fileFieldOk = false then (⟨400, .text "failed to get file"⟩, none)
  else if lowerString (filepathExt fileName) ≠ ".xlsx" then
    (⟨400, .text xlsxOnlyError⟩, none)
  else if env.configOk = false then
    (⟨500, .text "STORAGE_ACCOUNT and STORAGE_CONTAINER must be set"⟩, none)
  else if env.credOk = false then (⟨500, .text "failed to get credential"⟩, none)
  else if env.uploadOk then
    (⟨200, .text ("✅ Upload successful: " ++ filepathBase fileName)⟩,
      some (filepathBase fileName))
  else (⟨500, .text "failed to upload blob"⟩, some (filepathBase fileName))


/-! # Theorems -/

/-- C1: the Tier Remediator is a single-pass state machine. A failing
metadata query yields the `Error: Blob not accessible` outcome with zero
tier-change requests; metadata without an access tier yields
`Skipped: No access tier set` with zero requests; an `Archive` tier issues
exactly one tier-change request and yields `Changed: Archive → Cool` on
success or `Error: Failed to set tier` on failure; any other tier yields
`Skipped: Already <tier>` with zero requests. -/
theorem processBlobTier_state_machine (store : BlobStore)
    (account containerName blobPath : String) :
    (∀ e, store.getProps account containerName (encodeBlobPath blobPath) = .error e →
      processBlobTier store account containerName blobPath =
        ⟨"Error: Blob not accessible", some e, 0⟩) ∧
    (store.getProps account containerName (encodeBlobPath blobPath) = .ok none →
      processBlobTier store account containerName blobPath =
        ⟨"Skipped: No access tier set", none, 0⟩) ∧
    (store.getProps account containerName (encodeBlobPath blobPath) = .ok (some "Archive") →
      (store.setTier account containerName (encodeBlobPath blobPath) = .ok () →
        processBlobTier store account containerName blobPath =
          ⟨"Changed: Archive → Cool", none, 1⟩) ∧
      (∀ e, store.setTier account containerName (encodeBlobPath blobPath) = .error e →
        processBlobTier store account containerName blobPath =
          ⟨"Error: Failed to set tier", some e, 1⟩)) ∧
    (∀ t, t ≠ "Archive" →
      store.getProps account containerName (encodeBlobPath blobPath) = .ok (some t) →
      processBlobTier store account containerName blobPath =
        ⟨"Skipped: Already " ++ t, none, 0⟩) := by
  refine ⟨?_, ?_, ?_, ?_⟩
  · intro e he; simp [processBlobTier, he]
  · intro h; simp [processBlobTier, h]
  · intro h
    constructor
    · intro hs; simp [processBlobTier, h, hs]
    · intro e hs; simp [processBlobTier, h, hs]
  · intro t ht h; simp [processBlobTier, h, ht]

/-- Witness for `processBlobTier_state_machine`: on a store holding a `Cool`
blob, the outcome is `Skipped: Already Cool` with zero tier-change
requests. -/
theorem processBlobTier_state_machine_witness :
    processBlobTier (constStore (.ok (some "Cool")) (.ok ())) "acct" "cont" "a.xlsx" =
      ⟨"Skipped: Already Cool", none, 0⟩ :=
  (processBlobTier_state_machine (constStore (.ok (some "Cool")) (.ok ()))
    "acct" "cont" "a.xlsx").2.2.2 "Cool" (by decide) rfl

/-! ## Lemmas about the per-segment percent-encoding -/

theorem consHead_ne_nil (b : Char) (r : List (List Char)) : consHead b r ≠ [] := by
  cases r <;> simp [consHead]

theorem splitOnChar_ne_nil (c : Char) (l : List Char) : splitOnChar c l ≠ [] := by
  cases l with
  | nil => simp [splitOnChar]
  | cons b t =>
    simp only [splitOnChar]
    split
    · simp
    · exact consHead_ne_nil _ _

theorem mem_of_mem_splitOnChar {c b : Char} {s l : List Char}
    (hs : s ∈ splitOnChar c l) (hb : b ∈ s) : b ∈ l := by
  induction l generalizing s with
  | nil =>
    simp only [splitOnChar, List.mem_singleton] at hs
    subst hs; simp at hb
  | cons x t ih =>
    simp only [splitOnChar] at hs
    by_cases hx : x = c
    · rw [if_pos hx] at hs
      rcases List.mem_cons.mp hs with rfl | hs
      · simp at hb
      · exact List.mem_cons_of_mem _ (ih hs hb)
    · rw [if_neg hx] at hs
      rcases hh : splitOnChar c t with _ | ⟨s1, rest⟩
      · exact absurd hh (splitOnChar_ne_nil c t)
      · rw [hh] at hs
        simp only [consHead] at hs
        rcases List.mem_cons.mp hs with rfl | hs
        · rcases List.mem_cons.mp hb with rfl | hb2
          · exact List.mem_cons_self _ _
          · exact List.mem_cons_of_mem _
              (ih (by rw [hh]; exact List.mem_cons_self _ _) hb2)
        · exact List.mem_cons_of_mem _
            (ih (by rw [hh]; exact List.mem_cons_of_mem _ hs) hb)

theorem splitOnChar_of_not_mem {c : Char} {l : List Char} (h : c ∉ l) :
    splitOnChar c l = [l] := by
  induction l with
  | nil => rfl
  | cons b t ih =>
    have hb : b ≠ c := fun he => h (he ▸ List.mem_cons_self _ _)
    rw [splitOnChar, if_neg hb, ih (fun hm => h (List.mem_cons_of_mem _ hm))]
    rfl

theorem splitOnChar_append {c : Char} {s : List Char} (t : List Char) (h : c ∉ s) :
    splitOnChar c (s ++ c :: t) = s :: splitOnChar c t := by
  induction s with
  | nil => simp [splitOnChar]
  | cons b bs ih =>
    have hb : b ≠ c := fun he => h (he ▸ List.mem_cons_self _ _)
    have ih2 := ih (fun hm => h (List.mem_cons_of_mem _ hm))
    rw [List.cons_append, splitOnChar, if_neg hb, ih2]
    rfl

theorem splitOnChar_joinWithChar {c : Char} {pieces : List (List Char)}
    (hne : pieces ≠ []) (hall : ∀ s ∈ pieces, c ∉ s) :
    splitOnChar c (joinWithChar c pieces) = pieces := by
  induction pieces with
  | nil => exact absurd rfl hne
  | cons s rest ih =>
    match rest with
    | [] => exact splitOnChar_of_not_mem (hall s (List.mem_cons_self _ _))
    | s2 :: rest2 =>
      have hj : joinWithChar c (s :: s2 :: rest2) =
          s ++ c :: joinWithChar c (s2 :: rest2) := rfl
      rw [hj, splitOnChar_append _ (hall s (List.mem_cons_self _ _)),
        ih (by simp) (fun x hx => hall x (List.mem_cons_of_mem _ hx))]


theorem hexVal_upperHexChar {n : Nat} (h : n < 16) :
    hexVal (upperHexChar n) = some n := by
  interval_cases n <;> rfl

theorem upperHexChar_ne_slash {n : Nat} (h : n < 16) : upperHexChar n ≠ '/' := by
  interval_cases n <;> decide

theorem shouldEscapePathSegment_slash : shouldEscapePathSegment '/' = true := by decide

theorem shouldEscapePathSegment_percent : shouldEscapePathSegment '%' = true := by
  decide

theorem slash_not_mem_pathEscapeSeg {s : List Char}
    (hs : ∀ c ∈ s, c.toNat < 256) : '/' ∉ pathEscapeSeg s := by
  induction s with
  | nil => simp [pathEscapeSeg]
  | cons c t ih =>
    have hc : c.toNat < 256 := hs c (List.mem_cons_self _ _)
    have hdiv : c.toNat / 16 < 16 := by omega
    have hmod : c.toNat % 16 < 16 := Nat.mod_lt _ (by omega)
    have iht := ih (fun x hx => hs x (List.mem_cons_of_mem _ hx))
    intro hmem
    simp only [pathEscapeSeg, List.mem_append] at hmem
    rcases hmem with hmem | hmem
    · by_cases hesc : shouldEscapePathSegment c
      · rw [if_pos hesc] at hmem
        simp only [List.mem_cons, List.not_mem_nil, or_false] at hmem
        rcases hmem with h1 | h2 | h3
        · exact absurd h1 (by decide)
        · exact upperHexChar_ne_slash hdiv h2.symm
        · exact upperHexChar_ne_slash hmod h3.symm
      · rw [if_neg hesc] at hmem
        simp only [List.mem_singleton] at hmem
        rw [← hmem] at hesc
        exact hesc shouldEscapePathSegment_slash
    · exact iht hmem

theorem pathUnescapeSeg_pathEscapeSeg {s : List Char}
    (hs : ∀ c ∈ s, c.toNat < 256) :
    pathUnescapeSeg (pathEscapeSeg s) = some s := by
  induction s with
  | nil => rfl
  | cons c t ih =>
    have hc : c.toNat < 256 := hs c (List.mem_cons_self _ _)
    have hdiv : c.toNat / 16 < 16 := by omega
    have hmod : c.toNat % 16 < 16 := Nat.mod_lt _ (by omega)
    have iht := ih (fun x hx => hs x (List.mem_cons_of_mem _ hx))
    by_cases hesc : shouldEscapePathSegment c
    · have h1 : pathEscapeSeg (c :: t) =
          '%' :: upperHexChar (c.toNat / 16) :: upperHexChar (c.toNat % 16) ::
            pathEscapeSeg t := by
        simp [pathEscapeSeg, hesc]
      have h2 : 16 * (c.toNat / 16) + c.toNat % 16 = c.toNat := Nat.div_add_mod _ 16
      rw [h1, pathUnescapeSeg.eq_def]
      simp [hexVal_upperHexChar hdiv, hexVal_upperHexChar hmod, iht, h2,
        Char.ofNat_toNat]
    · have hcp : c ≠ '%' := fun he =>
        hesc (by rw [he]; exact shouldEscapePathSegment_percent)
      have h1 : pathEscapeSeg (c :: t) = c :: pathEscapeSeg t := by
        simp [pathEscapeSeg, hesc]
      rw [h1, pathUnescapeSeg.eq_def]
      simp [hcp, iht]


/-- C8: the path encoding splits on `/`, percent-encodes each segment
independently and rejoins with `/`: the encoded path splits back into
exactly the encoded segments (boundaries preserved), decoding each encoded
segment restores the original segment, and no encoded segment contains a
literal `/`.  Stated for paths of characters below 256, where the
character-level model is byte-exact for Go. -/
theorem encodeBlobPath_segmentwise (p : List Char) (hp : ∀ c ∈ p, c.toNat < 256) :
    splitOnChar '/' (encodeBlobPathChars p) = (splitOnChar '/' p).map pathEscapeSeg ∧
    (splitOnChar '/' (encodeBlobPathChars p)).map pathUnescapeSeg =
      (splitOnChar '/' p).map some ∧
    ∀ s ∈ (splitOnChar '/' p).map pathEscapeSeg, '/' ∉ s := by
  have hseg : ∀ s ∈ splitOnChar '/' p, ∀ c ∈ s, c.toNat < 256 :=
    fun s hsm c hc => hp c (mem_of_mem_splitOnChar hsm hc)
  have hnoslash : ∀ s ∈ (splitOnChar '/' p).map pathEscapeSeg, '/' ∉ s := by
    intro s hsm
    rcases List.mem_map.mp hsm with ⟨s0, hs0, rfl⟩
    exact slash_not_mem_pathEscapeSeg (hseg s0 hs0)
  have hsplit : splitOnChar '/' (encodeBlobPathChars p) =
      (splitOnChar '/' p).map pathEscapeSeg := by
    unfold encodeBlobPathChars
    exact splitOnChar_joinWithChar
      (by simpa using splitOnChar_ne_nil '/' p) hnoslash
  refine ⟨hsplit, ?_, hnoslash⟩
  rw [hsplit, List.map_map]
  exact List.map_congr_left fun s hsm =>
    pathUnescapeSeg_pathEscapeSeg (hseg s hsm)

/-- Witness for `encodeBlobPath_segmentwise` on the path
`folder one/my file.xlsx` (a path with spaces): every character is below
256, and decoding the encoded path restores both segments. -/
theorem encodeBlobPath_segmentwise_witness :
    (∀ c ∈ ("folder one/my file.xlsx").data, c.toNat < 256) ∧
    (splitOnChar '/' (encodeBlobPathChars ("folder one/my file.xlsx").data)).map
      pathUnescapeSeg =
      (splitOnChar '/' ("folder one/my file.xlsx").data).map some :=
  ⟨by decide, (encodeBlobPath_segmentwise ("folder one/my file.xlsx").data
    (by decide)).2.1⟩

/-! ## Lemmas about the sheet grid and the row loop -/

theorem headD_eq_getD {α : Type} (l : List α) (d : α) : l.headD d = l.getD 0 d := by
  cases l <;> rfl

theorem getD_mem {α : Type} {l : List α} {n : Nat} (h : n < l.length) (d : α) :
    l.getD n d ∈ l := by
  rw [List.getD_eq_getElem l d h]
  exact List.getElem_mem h

theorem getD_set_self {α : Type} (l : List α) (i : Nat) (h : i < l.length)
    (a d : α) : (l.set i a).getD i d = a := by
  simp [List.getD_eq_getElem?_getD, List.getElem?_set, h]

theorem getD_set_ne {α : Type} (l : List α) (i j : Nat) (h : j ≠ i) (a d : α) :
    (l.set i a).getD j d = l.getD j d := by
  simp [List.getD_eq_getElem?_getD, List.getElem?_set, Ne.symm h]

theorem getD_drop_one {α : Type} (l : List α) (k : Nat) (d : α) :
    (l.drop 1).getD k d = l.getD (k + 1) d := by
  simp [List.getD_eq_getElem?_getD, List.getElem?_drop, Nat.add_comm]

theorem padTo_of_le {α : Type} {n : Nat} (pad : α) {l : List α} (h : n ≤ l.length) :
    padTo n pad l = l := by
  simp [padTo, Nat.sub_eq_zero_of_le h]

theorem set_append_singleton {α : Type} (l : List α) (b a : α) :
    (l ++ [b]).set l.length a = l ++ [a] := by
  induction l with
  | nil => rfl
  | cons x xs ih => simp [List.set, ih]

theorem padTo_set_eq_append {α : Type} {l : List α} {L : Nat} (h : l.length ≤ L)
    (pad a : α) : (padTo (L + 1) pad l).set L a = padTo L pad l ++ [a] := by
  have h1 : L + 1 - l.length = (L - l.length) + 1 := by omega
  have h2 : (l ++ List.replicate (L - l.length) pad).length = L := by
    simp
    omega
  have h3 : padTo (L + 1) pad l =
      (l ++ List.replicate (L - l.length) pad) ++ [pad] := by
    simp only [padTo, h1, List.replicate_succ' _ _, List.append_assoc]
  have h4 := set_append_singleton (l ++ List.replicate (L - l.length) pad) pad a
  rw [h2] at h4
  rw [h3, h4]
  simp [padTo]

theorem setCell_length {g : List (List String)} {i : Nat} (h : i < g.length)
    (c : Nat) (v : String) : (setCell g i c v).length = g.length := by
  have hp : padTo (i + 1) ([] : List String) g = g := padTo_of_le _ (by omega)
  simp [setCell, hp]

theorem setCell_getD_ne {g : List (List String)} {i j : Nat} (h : i < g.length)
    (hne : j ≠ i) (c : Nat) (v : String) :
    (setCell g i c v).getD j [] = g.getD j [] := by
  have hp : padTo (i + 1) ([] : List String) g = g := padTo_of_le _ (by omega)
  simp only [setCell, hp]
  exact getD_set_ne _ _ _ hne _ _

theorem setCell_getD_self {g : List (List String)} {i : Nat} (h : i < g.length)
    (c : Nat) (v : String) :
    (setCell g i c v).getD i [] = (padTo (c + 1) "" (g.getD i [])).set c v := by
  have hp : padTo (i + 1) ([] : List String) g = g := padTo_of_le _ (by omega)
  simp only [setCell, hp]
  exact getD_set_self _ _ h _ _

theorem processRows_stats (find : String → Option (String × String × String))
    (store : BlobStore) (urlCol statusCol : Nat) :
    ∀ (remaining : List (List String)) (rowIndex : Nat) (g : List (List String))
      (st : Stats),
      st.processed = st.changed + st.skipped + st.errors →
      ((processRows find store urlCol statusCol rowIndex remaining g st).2).processed =
        ((processRows find store urlCol statusCol rowIndex remaining g st).2).changed +
        ((processRows find store urlCol statusCol rowIndex remaining g st).2).skipped +
        ((processRows find store urlCol statusCol rowIndex remaining g st).2).errors := by
  intro remaining
  induction remaining with
  | nil =>
    intro rowIndex g st h
    simpa [processRows] using h
  | cons row rest ih =>
    intro rowIndex g st h
    simp only [processRows]
    cases hout : rowOutcome find store urlCol row with
    | none => exact ih _ _ _ h
    | some o =>
      cases o <;>
        exact ih _ _ _ (by simp [Stats.record]; omega)

theorem processRows_length (find : String → Option (String × String × String))
    (store : BlobStore) (urlCol statusCol : Nat) :
    ∀ (remaining : List (List String)) (rowIndex : Nat) (g : List (List String))
      (st : Stats), rowIndex + remaining.length ≤ g.length →
      ((processRows find store urlCol statusCol rowIndex remaining g st).1).length =
        g.length := by
  intro remaining
  induction remaining with
  | nil =>
    intro rowIndex g st _
    simp [processRows]
  | cons row rest ih =>
    intro rowIndex g st h
    simp only [List.length_cons] at h
    simp only [processRows]
    cases hout : rowOutcome find store urlCol row with
    | none => exact ih _ _ _ (by omega)
    | some o =>
      have hrow : rowIndex < g.length := by omega
      have hl := setCell_length hrow statusCol o.status
      rw [ih _ _ _ (by rw [hl]; omega)]
      exact hl

theorem processRows_getD (find : String → Option (String × String × String))
    (store : BlobStore) (urlCol statusCol : Nat) :
    ∀ (remaining : List (List String)) (rowIndex : Nat) (g : List (List String))
      (st : Stats) (j : Nat), rowIndex + remaining.length ≤ g.length →
      ((processRows find store urlCol statusCol rowIndex remaining g st).1).getD j [] =
        if rowIndex ≤ j ∧ j < rowIndex + remaining.length then
          match rowOutcome find store urlCol (remaining.getD (j - rowIndex) []) with
          | none => g.getD j []
          | some o => (padTo (statusCol + 1) "" (g.getD j [])).set statusCol o.status
        else g.getD j [] := by
  intro remaining
  induction remaining with
  | nil =>
    intro rowIndex g st j h
    rw [if_neg (by simp only [List.length_nil]; omega)]
    rfl
  | cons row rest ih =>
    intro rowIndex g st j h
    simp only [List.length_cons] at h
    cases hout : rowOutcome find store urlCol row with
    | none =>
      have hstep : processRows find store urlCol statusCol rowIndex (row :: rest) g st =
          processRows find store urlCol statusCol (rowIndex + 1) rest g st := by
        simp [processRows, hout]
      rw [hstep, ih (rowIndex + 1) g st j (by omega)]
      simp only [List.length_cons]
      by_cases hj0 : j = rowIndex
      · subst hj0
        rw [if_neg (by omega), if_pos (by omega)]
        simp [hout]
      · by_cases hja : rowIndex ≤ j ∧ j < rowIndex + (rest.length + 1)
        · have harith : j - rowIndex = (j - (rowIndex + 1)) + 1 := by omega
          rw [if_pos (by omega), if_pos hja, harith]
          simp only [List.getD_cons_succ]
        · rw [if_neg (by omega), if_neg hja]
    | some o =>
      have hrow : rowIndex < g.length := by omega
      have hstep : processRows find store urlCol statusCol rowIndex (row :: rest) g st =
          processRows find store urlCol statusCol (rowIndex + 1) rest
            (setCell g rowIndex statusCol o.status) (st.record o) := by
        simp [processRows, hout]
      have hglen : (setCell g rowIndex statusCol o.status).length = g.length :=
        setCell_length hrow _ _
      rw [hstep, ih (rowIndex + 1) _ _ j (by rw [hglen]; omega)]
      simp only [List.length_cons]
      by_cases hj0 : j = rowIndex
      · subst hj0
        rw [if_neg (by omega), if_pos (by omega)]
        rw [setCell_getD_self hrow]
        simp [hout]
      · have hne := setCell_getD_ne hrow hj0 statusCol o.status
        by_cases hja : rowIndex ≤ j ∧ j < rowIndex + (rest.length + 1)
        · have harith : j - rowIndex = (j - (rowIndex + 1)) + 1 := by omega
          rw [if_pos (by omega), if_pos hja, harith]
          simp only [List.getD_cons_succ, hne]
        · rw [if_neg (by omega), if_neg hja, hne]

/-- C10: after every run over a table, the aggregate counters satisfy
processed = changed + skipped + errors: each matching cell bumps `processed`
exactly once and then exactly one of `changed`, `skipped`, `errors`. -/
theorem processExcelFile_counter_identity
    (find : String → Option (String × String × String)) (store : BlobStore)
    (g : List (List String)) :
    ((processExcelFile find store g).2).processed =
      ((processExcelFile find store g).2).changed +
      ((processExcelFile find store g).2).skipped +
      ((processExcelFile find store g).2).errors := by
  unfold processExcelFile
  by_cases h0 : g.length = 0
  · simp [h0, Stats.init]
  · rw [if_neg h0]
    cases hcol : findURLColumn g (fun s => (find s).isSome) with
    | none => simp [Stats.init]
    | some urlCol =>
      exact processRows_stats find store urlCol _ _ _ _ _ (by simp [Stats.init])

/-- C3: when no reference column can be determined, processing leaves the
table unmodified — no Status column is added and no cell is written. -/
theorem processExcelFile_no_column_unmodified
    (find : String → Option (String × String × String)) (store : BlobStore)
    (g : List (List String))
    (h : findURLColumn g (fun s => (find s).isSome) = none) :
    (processExcelFile find store g).1 = g := by
  unfold processExcelFile
  by_cases h0 : g.length = 0
  · simp [h0]
  · rw [if_neg h0, h]

/-- Witness for `processExcelFile_no_column_unmodified`: the table
`[["a"], ["x"]]` has no vocabulary header and no matching cell, and comes
back from processing untouched. -/
theorem processExcelFile_no_column_unmodified_witness :
    findURLColumn [["a"], ["x"]] (fun s => (matchBlobURL s).isSome) = none ∧
    (processExcelFile matchBlobURL (constStore (.ok (some "Hot")) (.ok ()))
        [["a"], ["x"]]).1 = [["a"], ["x"]] :=
  ⟨by decide, processExcelFile_no_column_unmodified _ _ _ (by decide)⟩

/-- C2: the content fallback of the Column Locator scans only the first nine
data rows, not ten: the loop `for rowIndex := 1; rowIndex < len(rows) &&
rowIndex < 10` counts rows 1 through 9 of the table while its own comment
says "Check first 10 data rows".  On `nineRowScanTable` the code returns
column 0, although within the first ten data rows column 1 holds the
strictly highest reference count (two against one), so the claimed
ten-data-row scan picks column 1. -/
theorem findURLColumn_scans_nine_data_rows :
    findURLColumn nineRowScanTable matchBlobURLBool = some 0 ∧
    ((nineRowScanTable.drop 1).take 10).countP
        (fun row => matchBlobURLBool (trimSpace (row.getD 1 ""))) = 2 ∧
    ((nineRowScanTable.drop 1).take 10).countP
        (fun row => matchBlobURLBool (trimSpace (row.getD 0 ""))) = 1 := by
  exact ⟨by decide, by decide, by decide⟩

/-- C6 counterexample: on the table with header row `["url"]` and the ragged
data row `[<blob URL>, "note"]`, the Status column index is computed from
the header row alone, so the write lands on the data row's existing second
cell: the cell holding `"note"` is overwritten with the outcome string,
contradicting the claim that the appended column never overwrites an
existing column. -/
theorem processExcelFile_overwrites_ragged_cell :
    ((processExcelFile matchBlobURL (constStore (.ok (some "Hot")) (.ok ()))
        [["url"], ["https://a.blob.core.windows.net/c/p.xlsx", "note"]]).1.getD 1 []).getD 1 ""
      = "Skipped: Already Hot" ∧
    (([["url"], ["https://a.blob.core.windows.net/c/p.xlsx", "note"]] :
        List (List String)).getD 1 []).getD 1 "" = "note" := by
  exact ⟨by decide, by decide⟩

/-- C6 (amended): with a determined reference column the annotator appends
exactly one trailing `Status` column after the last header column; each data
row that yielded a reference gets its outcome string as the cell in that
column, each row that yielded none is left untouched, and no rows are added
or removed.  Provided no data row is longer than the header row — the
amendment the ragged counterexample forces — no existing cell is
overwritten: every original row survives as a prefix of its annotated
form. -/
theorem processExcelFile_status_column
    (find : String → Option (String × String × String)) (store : BlobStore)
    (g : List (List String)) (urlCol : Nat)
    (hcol : findURLColumn g (fun s => (find s).isSome) = some urlCol)
    (hlen : ∀ row ∈ g.drop 1, row.length ≤ (g.headD []).length) :
    ((processExcelFile find store g).1).length = g.length ∧
    ((processExcelFile find store g).1).getD 0 [] = g.getD 0 [] ++ ["Status"] ∧
    (∀ i, 1 ≤ i → i < g.length →
      (match rowOutcome find store urlCol (g.getD i []) with
       | none => ((processExcelFile find store g).1).getD i [] = g.getD i []
       | some o => ((processExcelFile find store g).1).getD i [] =
           padTo (g.headD []).length "" (g.getD i []) ++ [o.status])) ∧
    (∀ i, i < g.length →
      (((processExcelFile find store g).1).getD i []).take (g.getD i []).length =
        g.getD i []) := by
  have h0 : ¬ g.length = 0 := by
    intro h0
    rw [List.length_eq_zero.mp h0] at hcol
    simp [findURLColumn] at hcol
  have hunf : processExcelFile find store g =
      processRows find store urlCol (g.headD []).length 1 (g.drop 1)
        (setCell g 0 (g.headD []).length "Status") Stats.init := by
    unfold processExcelFile
    rw [if_neg h0, hcol]
  have h0lt : 0 < g.length := Nat.pos_of_ne_zero h0
  have hdrop : (g.drop 1).length = g.length - 1 := by simp
  have hg2len : (setCell g 0 (g.headD []).length "Status").length = g.length :=
    setCell_length h0lt _ _
  have hle : 1 + (g.drop 1).length ≤ (setCell g 0 (g.headD []).length "Status").length := by
    rw [hg2len, hdrop]; omega
  have hhead : (g.getD 0 []).length = (g.headD []).length := by
    rw [headD_eq_getD]
  have hget := processRows_getD find store urlCol (g.headD []).length
    (g.drop 1) 1 (setCell g 0 (g.headD []).length "Status") Stats.init
  refine ⟨?_, ?_, ?_, ?_⟩
  · rw [hunf, processRows_length find store urlCol _ _ _ _ _ hle, hg2len]
  · rw [hunf, hget 0 hle, if_neg (by omega),
      setCell_getD_self h0lt _ _, ← hhead,
      padTo_set_eq_append (Nat.le_refl _) _ _, padTo_of_le _ (Nat.le_refl _)]
  · intro i h1 h2
    have hcond : 1 ≤ i ∧ i < 1 + (g.drop 1).length := by rw [hdrop]; omega
    have hrow : (g.drop 1).getD (i - 1) [] = g.getD i [] := by
      rw [getD_drop_one]
      congr 1
      omega
    have hne0 : i ≠ 0 := by omega
    have hgather := hget i hle
    rw [if_pos hcond, hrow, setCell_getD_ne h0lt hne0] at hgather
    have hrowlen : (g.getD i []).length ≤ (g.headD []).length := by
      apply hlen
      rw [← hrow]
      exact getD_mem (by rw [hdrop]; omega) []
    cases hout : rowOutcome find store urlCol (g.getD i []) with
    | none =>
      rw [hunf, hgather, hout]
    | some o =>
      rw [hunf, hgather, hout]
      exact padTo_set_eq_append hrowlen _ _
  · intro i hi
    by_cases hi0 : i = 0
    · subst hi0
      have hh : ((processExcelFile find store g).1).getD 0 [] =
          g.getD 0 [] ++ ["Status"] := by
        rw [hunf, hget 0 hle, if_neg (by omega),
          setCell_getD_self h0lt _ _, ← hhead,
          padTo_set_eq_append (Nat.le_refl _) _ _, padTo_of_le _ (Nat.le_refl _)]
      rw [hh, List.take_append_of_le_length (Nat.le_refl _), List.take_length]
    · have h1 : 1 ≤ i := by omega
      have hcond : 1 ≤ i ∧ i < 1 + (g.drop 1).length := by rw [hdrop]; omega
      have hrow : (g.drop 1).getD (i - 1) [] = g.getD i [] := by
        rw [getD_drop_one]
        congr 1
        omega
      have hgather := hget i hle
      rw [if_pos hcond, hrow, setCell_getD_ne h0lt hi0] at hgather
      have hrowlen : (g.getD i []).length ≤ (g.headD []).length := by
        apply hlen
        rw [← hrow]
        exact getD_mem (by rw [hdrop]; omega) []
      cases hout : rowOutcome find store urlCol (g.getD i []) with
      | none =>
        rw [hunf, hgather, hout, List.take_length]
      | some o =>
        rw [hunf, hgather, hout]
        show ((padTo ((g.headD []).length + 1) "" (g.getD i [])).set
            (g.headD []).length o.status).take (g.getD i []).length = g.getD i []
        rw [padTo_set_eq_append hrowlen _ _,
          List.take_append_of_le_length (by simp [padTo]), padTo, List.take_left]

/-- Witness for `processExcelFile_status_column` on the spec's end-to-end
table: header `["url"]`, one data row holding an Archive blob; the header
row comes back as `["url", "Status"]`. -/
theorem processExcelFile_status_column_witness :
    findURLColumn [["url"], ["https://acct.blob.core.windows.net/cont/a.txt"]]
        (fun s => (matchBlobURL s).isSome) = some 0 ∧
    (∀ row ∈ ([["url"], ["https://acct.blob.core.windows.net/cont/a.txt"]] :
        List (List String)).drop 1,
      row.length ≤ (([["url"], ["https://acct.blob.core.windows.net/cont/a.txt"]] :
        List (List String)).headD []).length) ∧
    ((processExcelFile matchBlobURL (constStore (.ok (some "Archive")) (.ok ()))
        [["url"], ["https://acct.blob.core.windows.net/cont/a.txt"]]).1).getD 0 [] =
      ([["url"], ["https://acct.blob.core.windows.net/cont/a.txt"]] :
        List (List String)).getD 0 [] ++ ["Status"] :=
  ⟨by decide, by decide,
    (processExcelFile_status_column matchBlobURL
      (constStore (.ok (some "Archive")) (.ok ()))
      [["url"], ["https://acct.blob.core.windows.net/cont/a.txt"]] 0
      (by decide) (by decide)).2.1⟩

/-! ## Lemmas about the webhook event loop -/

theorem blobCreated_ne_validation :
    (blobCreatedEvent = subscriptionValidationEvent) = False :=
  eq_false (by decide)

theorem validation_ne_blobCreated :
    (subscriptionValidationEvent = blobCreatedEvent) = False :=
  eq_false (by decide)

theorem blobCreatedUrls_cons (e : Envelope) (rest : List Envelope) :
    blobCreatedUrls (e :: rest) =
      if e.eventType = blobCreatedEvent then e.url :: blobCreatedUrls rest
      else blobCreatedUrls rest := by
  by_cases hb : e.eventType = blobCreatedEvent <;>
    simp [blobCreatedUrls, List.filter_cons, hb]

theorem eventLoop_all_ok (pipeline : String → Except String Unit) :
    ∀ events : List Envelope,
      (∀ e ∈ events, e.eventType = blobCreatedEvent → pipeline e.url = .ok ()) →
      eventLoop pipeline events = (blobCreatedUrls events, none) := by
  intro events
  induction events with
  | nil => intro _; rfl
  | cons e rest ih =>
    intro h
    have hrest := ih (fun x hx => h x (List.mem_cons_of_mem _ hx))
    by_cases hb : e.eventType = blobCreatedEvent
    · have hok := h e (List.mem_cons_self _ _) hb
      simp [eventLoop, hb, hok, hrest, blobCreatedUrls_cons,
        blobCreated_ne_validation]
    · by_cases hv : e.eventType = subscriptionValidationEvent
      · simp [eventLoop, hv, hrest, blobCreatedUrls_cons,
          validation_ne_blobCreated]
      · simp [eventLoop, hv, hb, hrest, blobCreatedUrls_cons]

theorem eventLoop_first_error (pipeline : String → Except String Unit) :
    ∀ (pre : List Envelope) (e : Envelope) (post : List Envelope) (msg : String),
      (∀ x ∈ pre, x.eventType = blobCreatedEvent → pipeline x.url = .ok ()) →
      e.eventType = blobCreatedEvent → pipeline e.url = .error msg →
      eventLoop pipeline (pre ++ e :: post) =
        (blobCreatedUrls pre ++ [e.url], some msg) := by
  intro pre
  induction pre with
  | nil =>
    intro e post msg _ hb herr
    simp [eventLoop, hb, herr, blobCreatedUrls, blobCreated_ne_validation]
  | cons x rest ih =>
    intro e post msg h hb herr
    have hrest := ih e post msg (fun y hy => h y (List.mem_cons_of_mem _ hy)) hb herr
    by_cases hxb : x.eventType = blobCreatedEvent
    · have hok := h x (List.mem_cons_self _ _) hxb
      simp [eventLoop, hxb, hok, hrest, blobCreatedUrls_cons,
        blobCreated_ne_validation]
    · by_cases hxv : x.eventType = subscriptionValidationEvent
      · simp [eventLoop, hxv, hrest, blobCreatedUrls_cons,
          validation_ne_blobCreated]
      · simp [eventLoop, hxv, hxb, hrest, blobCreatedUrls_cons]

/-- C4: a body whose validation parse yields a first element tagged with the
subscription-validation sentinel is answered 200 with the first element's
validation code echoed verbatim in the response envelope, regardless of what
else the body holds; no further event of the body is processed and no
pipeline invocation — hence no object-store call — is made. -/
theorem handleProcess_validation (pipeline : String → Except String Unit)
    (e : Envelope) (rest : List Envelope) (evtParse : Option (List Envelope))
    (h : e.eventType = subscriptionValidationEvent) :
    handleProcess pipeline (some (e :: rest)) evtParse =
      (⟨200, .validation e.validationCode⟩, []) := by
  simp [handleProcess, isValidationBatch, h]

/-- Witness for `handleProcess_validation`: the spec's handshake scenario,
echoing `abc123` with no pipeline work. -/
theorem handleProcess_validation_witness :
    (⟨"1", subscriptionValidationEvent, "abc123", ""⟩ : Envelope).eventType =
      subscriptionValidationEvent ∧
    handleProcess (fun _ => .ok ())
        (some [⟨"1", subscriptionValidationEvent, "abc123", ""⟩])
        (some [⟨"1", subscriptionValidationEvent, "abc123", ""⟩]) =
      (⟨200, .validation "abc123"⟩, []) :=
  ⟨rfl, handleProcess_validation _ _ _ _ rfl⟩

/-- C5: batch semantics of the event branch.  If every `BlobCreated` event's
pipeline invocation succeeds, the response is the fixed 200 acknowledgement
and exactly the batch's `BlobCreated` URLs were dispatched in order.  If
some `BlobCreated` event fails after the events before it completed, the
whole request is answered 500 carrying the failure detail, no later event
is dispatched, and the invocations made before the failing one stand —
nothing is rolled back. -/
theorem handleProcess_batch (pipeline : String → Except String Unit)
    (valParse : Option (List Envelope)) (events : List Envelope)
    (hval : isValidationBatch valParse = false) :
    ((∀ e ∈ events, e.eventType = blobCreatedEvent → pipeline e.url = .ok ()) →
      handleProcess pipeline valParse (some events) =
        (⟨200, .text "✅ Event processed"⟩, blobCreatedUrls events)) ∧
    (∀ (pre : List Envelope) (e : Envelope) (post : List Envelope) (msg : String),
      events = pre ++ e :: post →
      (∀ x ∈ pre, x.eventType = blobCreatedEvent → pipeline x.url = .ok ()) →
      e.eventType = blobCreatedEvent → pipeline e.url = .error msg →
      handleProcess pipeline valParse (some events) =
        (⟨500, .text ("failed to process blob: " ++ msg)⟩,
          blobCreatedUrls pre ++ [e.url])) := by
  constructor
  · intro h
    simp [handleProcess, hval, eventLoop_all_ok pipeline events h]
  · intro pre e post msg hsplit hpre hb herr
    subst hsplit
    simp [handleProcess, hval,
      eventLoop_first_error pipeline pre e post msg hpre hb herr]

/-- Witness for `handleProcess_batch`: a three-event batch whose second
`BlobCreated` event fails; the first URL's invocation stands, the third is
never dispatched, and the response is the 500 with the failure detail. -/
theorem handleProcess_batch_witness :
    isValidationBatch none = false ∧
    handleProcess (fun u => if u = "bad" then .error "boom" else .ok ()) none
        (some [⟨"1", blobCreatedEvent, "", "u1"⟩,
               ⟨"2", blobCreatedEvent, "", "bad"⟩,
               ⟨"3", blobCreatedEvent, "", "u2"⟩]) =
      (⟨500, .text ("failed to process blob: " ++ "boom")⟩,
        blobCreatedUrls [⟨"1", blobCreatedEvent, "", "u1"⟩] ++ ["bad"]) :=
  ⟨rfl,
    (handleProcess_batch (fun u => if u = "bad" then .error "boom" else .ok ())
        none
        [⟨"1", blobCreatedEvent, "", "u1"⟩, ⟨"2", blobCreatedEvent, "", "bad"⟩,
         ⟨"3", blobCreatedEvent, "", "u2"⟩] rfl).2
      [⟨"1", blobCreatedEvent, "", "u1"⟩] ⟨"2", blobCreatedEvent, "", "bad"⟩
      [⟨"3", blobCreatedEvent, "", "u2"⟩] "boom" rfl
      (by
        intro x hx hbx
        rw [List.mem_singleton.mp hx]
        rfl)
      rfl rfl⟩

/-- C7 counterexample: for the source object `b.docx` the publisher appends
the fixed suffix without stripping the `.docx` extension — the uploaded
name is `b.docx_processed.xlsx`, not the `b_processed.xlsx` that stripping
the source's extension would produce. -/
theorem uploadToOutputContainer_keeps_foreign_extension :
    (uploadToOutputContainer ⟨true, true, true⟩
        "https://acct.blob.core.windows.net/cont/b.docx").1.uploads =
      [("b.docx_processed.xlsx", spreadsheetContentType)] ∧
    "b.docx_processed.xlsx" ≠ "b_processed.xlsx" := by
  exact ⟨by decide, by decide⟩

/-- C7 (amended): the Output Publisher derives the output name by stripping
the `.xlsx` suffix when present — any other extension is kept — and
appending the fixed `_processed.xlsx` suffix (so `a.xlsx` becomes
`a_processed.xlsx`); it issues a container-create call exactly when the
existence probe fails; once the container is available it makes exactly one
upload attempt, with the spreadsheet content type, and an upload failure is
returned to the caller, not retried; when neither probe nor create succeeds
the create error is returned and nothing is uploaded. -/
theorem uploadToOutputContainer_spec (store : OutputStore) (blobURL : String) :
    ((uploadToOutputContainer store blobURL).1.createCalls =
      if store.containerExists then 0 else 1) ∧
    ((store.containerExists || store.createOk) = true →
      (uploadToOutputContainer store blobURL).1.uploads =
        [(goTrimSuffix (extractFilenameFromURL blobURL) ".xlsx" ++
            "_processed.xlsx", spreadsheetContentType)] ∧
      ((uploadToOutputContainer store blobURL).2 = none ↔ store.uploadOk = true)) ∧
    (store.containerExists = false → store.createOk = false →
      (uploadToOutputContainer store blobURL).2 =
        some "failed to create output container" ∧
      (uploadToOutputContainer store blobURL).1.uploads = []) := by
  cases store with
  | mk ce co uo =>
    cases ce <;> cases co <;> cases uo <;>
      simp [uploadToOutputContainer]

/-- Witness for `uploadToOutputContainer_spec`: a missing container with a
succeeding create and a failing upload on source `a.xlsx`: the single
upload attempt carries `a_processed.xlsx` with the spreadsheet content
type, and the failure is propagated. -/
theorem uploadToOutputContainer_spec_witness :
    (((⟨false, true, false⟩ : OutputStore).containerExists ||
        (⟨false, true, false⟩ : OutputStore).createOk) = true) ∧
    ((uploadToOutputContainer ⟨false, true, false⟩
        "https://acct.blob.core.windows.net/cont/a.xlsx").1.uploads =
      [(goTrimSuffix
          (extractFilenameFromURL "https://acct.blob.core.windows.net/cont/a.xlsx")
          ".xlsx" ++ "_processed.xlsx", spreadsheetContentType)] ∧
      ((uploadToOutputContainer ⟨false, true, false⟩
          "https://acct.blob.core.windows.net/cont/a.xlsx").2 = none ↔
        (⟨false, true, false⟩ : OutputStore).uploadOk = true)) :=
  ⟨by decide,
    (uploadToOutputContainer_spec ⟨false, true, false⟩
      "https://acct.blob.core.windows.net/cont/a.xlsx").2.1 (by decide)⟩

/-- C9 counterexample: the file name `REPORT.XLSX` does not end in the
extension `.xlsx`, yet the handler lower-cases the extension before
comparing and accepts and stores the file. -/
theorem handleUpload_accepts_uppercase_extension :
    handleUpload ⟨true, true, true, true, true⟩ "REPORT.XLSX" =
      (⟨200, .text ("✅ Upload successful: " ++ "REPORT.XLSX")⟩,
        some "REPORT.XLSX") ∧
    (".xlsx".data).isSuffixOf ("REPORT.XLSX".data) = false := by
  exact ⟨by decide, by decide⟩

/-- C9 (amended): an upload reaches the store only when the file name's
extension, lower-cased, equals `.xlsx` — that is, the name ends in `.xlsx`
up to letter case; any name failing that check, on a request whose form
parses and carries the file field, is rejected with the 400 response naming
the restriction, and nothing is uploaded to the store. -/
theorem handleUpload_xlsx_gate (env : UploadEnv) (fileName : String) :
    ((handleUpload env fileName).2.isSome = true →
      lowerString (filepathExt fileName) = ".xlsx") ∧
    (lowerString (filepathExt fileName) ≠ ".xlsx" →
      env.parseFormOk = true → env.fileFieldOk = true →
      handleUpload env fileName = (⟨400, .text xlsxOnlyError⟩, none)) := by
  cases env with
  | mk p f c cr u =>
    constructor
    · intro h
      by_cases hext : lowerString (filepathExt fileName) = ".xlsx"
      · exact hext
      · exfalso
        cases p <;> cases f <;> simp [handleUpload, hext] at h
    · intro hext hp hf
      subst hp
      subst hf
      simp [handleUpload, hext]

/-- Witness for `handleUpload_xlsx_gate`: `virus.exe` is rejected with the
restriction-naming client error and no store upload, even with every
environment step succeeding. -/
theorem handleUpload_xlsx_gate_witness :
    lowerString (filepathExt "virus.exe") ≠ ".xlsx" ∧
    handleUpload ⟨true, true, true, true, true⟩ "virus.exe" =
      (⟨400, .text xlsxOnlyError⟩, none) :=
  ⟨by decide,
    (handleUpload_xlsx_gate ⟨true, true, true, true, true⟩ "virus.exe").2
      (by decide) rfl rfl⟩
